import Mathlib

/-!
# Verification of the bigbang-gallery color extractor and gallery controllers

This file is a shallow embedding, in Lean 4, of the parts of the
bigbang-gallery repository that its specification makes claims about:

* `ColorExtractor` (median-cut color quantization, the palette cache, the
  cross-origin fallback palettes, and the RGB/hex/HSL utility functions);
* the lazy-loading intersection observer of the grid gallery and the
  `fixImages` routine of `SimpleGallery`;
* the lightbox / image-details overlay life cycle;
* `CosmicGallery.waitForImage`.

JavaScript numbers are embedded as `Nat`, `Int` (with explicit 32-bit
wrapping where the code relies on `<<`/`&` coercions) and `ℚ`; `ℚ` stands
in for IEEE doubles in derived color fields whose exact rounding no claim
depends on.  JavaScript's `Array.prototype.sort` is stable with a
deterministic comparator; it is embedded as Mathlib's stable
`List.insertionSort`, which produces the same (unique) stable result.
`[NaN, NaN, NaN]`, which the code can produce by averaging an empty pixel
group, is embedded as `none : Option RGBPix`.
-/

/-- A sampled pixel `[r, g, b]` as pushed onto `pixelArray` in
`ColorExtractor.analyzeImage`. -/
structure RGBPix where
  r : Nat
  g : Nat
  b : Nat
deriving DecidableEq, Repr

/-- JavaScript `pixel[d]`: channel access by index, as used by
`allPixels.sort((a, b) => a[sortDimension] - b[sortDimension])`.  Only the
indices 0, 1, 2 occur in the code. -/
def RGBPix.chan (p : RGBPix) : Nat → Nat
  | 0 => p.r
  | 1 => p.g
  | _ => p.b

/-- One entry of the histogram object built in
`ColorExtractor.getHistogram`: the first pixel seen in the bucket
(`color`), the number of pixels (`count`) and the pixels themselves. -/
structure HistEntry where
  color : RGBPix
  count : Nat
  pixels : List RGBPix
deriving DecidableEq, Repr

/-- A "box" in the median-cut loop: a list of histogram entries. -/
abbrev Box := List HistEntry

/-- Value of `this.colorBuckets`, set to 16 in the `ColorExtractor` constructor. -/
def colorBuckets : Nat := 16

/-- The histogram key
`Math.floor(r/16)*16 + ',' + Math.floor(g/16)*16 + ',' + Math.floor(b/16)*16`;
two pixels collide exactly when the quantized triples agree, so the key is
embedded as the triple itself. -/
def bucketKey (p : RGBPix) : Nat × Nat × Nat :=
  (p.r / colorBuckets * colorBuckets,
   p.g / colorBuckets * colorBuckets,
   p.b / colorBuckets * colorBuckets)

/-- Processing one pixel in `getHistogram`'s `forEach`: find the bucket
with the same key (JavaScript object keys enumerate in insertion order, so
a fresh bucket is appended at the end), increment its count and push the
pixel. -/
def histInsert : Box → RGBPix → Box
  | [], p => [⟨p, 1, [p]⟩]
  | e :: rest, p =>
    if bucketKey e.color = bucketKey p then
      ⟨e.color, e.count + 1, e.pixels ++ [p]⟩ :: rest
    else
      e :: histInsert rest p

/-- Embedding of `ColorExtractor.getHistogram` (part_002 lines 144–164). -/
def getHistogram (pixelArray : List RGBPix) : Box :=
  pixelArray.foldl histInsert []

/-- The double `forEach` over `box` used by `getColorVolume`, `splitBox`
and `getAverageColor`: all pixels of all entries, in order. -/
def allPixels (box : Box) : List RGBPix :=
  box.flatMap (·.pixels)

/-- Running minimum of a channel, initialised to 255 as in the code. -/
def minChan (d : Nat) (ps : List RGBPix) : Nat :=
  ps.foldl (fun m p => min m (p.chan d)) 255

/-- Running maximum of a channel, initialised to 0 as in the code. -/
def maxChan (d : Nat) (ps : List RGBPix) : Nat :=
  ps.foldl (fun m p => max m (p.chan d)) 0

/-- Range `max - min` of one channel; an `Int` because with no pixels the code
computes `0 - 255`. -/
def chanRange (d : Nat) (ps : List RGBPix) : Int :=
  (maxChan d ps : Int) - minChan d ps

/-- Embedding of `ColorExtractor.getColorVolume` (part_002 lines 166–186):
`(maxR-minR) * (maxG-minG) * (maxB-minB)`, 0 for an empty box. -/
def getColorVolume (box : Box) : Int :=
  if box = [] then 0
  else
    chanRange 0 (allPixels box) * chanRange 1 (allPixels box) *
      chanRange 2 (allPixels box)

/-- The `sortDimension` computation in `splitBox` (part_002 lines
214–220): green if its range strictly exceeds both others, else blue if
its range strictly exceeds both others, else red. -/
def sortDimension (ps : List RGBPix) : Nat :=
  if chanRange 1 ps > chanRange 0 ps ∧ chanRange 1 ps > chanRange 2 ps then 1
  else if chanRange 2 ps > chanRange 0 ps ∧ chanRange 2 ps > chanRange 1 ps then 2
  else 0

/-- Embedding of `allPixels.sort((a, b) => a[d] - b[d])`: a stable ascending sort on
channel `d`. -/
def sortByChan (d : Nat) (ps : List RGBPix) : List RGBPix :=
  List.insertionSort (fun p q => p.chan d ≤ q.chan d) ps

/-- Embedding of `ColorExtractor.splitBox` (part_002 lines 188–233): sort all pixels of
the box along `sortDimension`, split at `Math.floor(length / 2)` and
re-histogram the halves. -/
def splitBox (box : Box) : Box × Box :=
  if box = [] then ([], [])
  else
    let sorted := sortByChan (sortDimension (allPixels box)) (allPixels box)
    (getHistogram (sorted.take (sorted.length / 2)),
     getHistogram (sorted.drop (sorted.length / 2)))

/-- Embedding of `Math.round(t / c)` for naturals (`Math.round` is floor of `x + 1/2`). -/
def jsRoundDiv (t c : Nat) : Nat := (2 * t + c) / (2 * c)

/-- Embedding of `ColorExtractor.getAverageColor` (part_002 lines 235–254).  With no
pixels the code divides 0 by 0 and yields `[NaN, NaN, NaN]`, embedded as
`none`. -/
def getAverageColor (box : Box) : Option RGBPix :=
  let ps := allPixels box
  if ps = [] then none
  else
    some ⟨jsRoundDiv (ps.foldl (fun s p => s + p.r) 0) ps.length,
          jsRoundDiv (ps.foldl (fun s p => s + p.g) 0) ps.length,
          jsRoundDiv (ps.foldl (fun s p => s + p.b) 0) ps.length⟩

/-- The `for (let i = 1; ...)` scan in `medianCut` that tracks
`largestIndex` and `largestVolume`; `i` is the index of the head of the
remaining list, `best`/`vol` the variables so far.  Only a strictly larger
volume updates them. -/
def largestAux : List Box → Nat → Nat → Int → Nat × Int
  | [], _, best, vol => (best, vol)
  | b :: rest, i, best, vol =>
    if getColorVolume b > vol then largestAux rest (i + 1) i (getColorVolume b)
    else largestAux rest (i + 1) best vol

/-- Value of `largestIndex` after the scan, which starts at `boxes[0]`. -/
def largestIdx (boxes : List Box) : Nat :=
  match boxes with
  | [] => 0
  | b0 :: rest => (largestAux rest 1 0 (getColorVolume b0)).1

/-- One iteration of the `while (boxes.length < colorCount)` loop in
`medianCut`: `boxes.splice(largestIndex, 1, box1, box2)`. -/
def splitStep (boxes : List Box) : List Box :=
  let i := largestIdx boxes
  let (b1, b2) := splitBox (boxes.getD i [])
  boxes.take i ++ [b1, b2] ++ boxes.drop (i + 1)

/-- Runs `n` iterations of the while loop. -/
def mcIter : Nat → List Box → List Box
  | 0, boxes => boxes
  | n + 1, boxes => mcIter n (splitStep boxes)

/-- Embedding of `ColorExtractor.medianCut` (part_002 lines 107–142).  If the histogram
has at most `colorCount` buckets, it returns the representative `color` of
each bucket; otherwise it sorts the histogram by descending count
(`(a, b) => b.count - a.count`, a stable sort), runs the splitting loop
until there are `colorCount` boxes (the loop body runs
`colorCount - 1` times since each `splice` adds exactly one box), and
averages each box.  An average of an empty box is `none`
(`[NaN, NaN, NaN]` in the code). -/
def medianCut (pixelArray : List RGBPix) (colorCount : Nat) : List (Option RGBPix) :=
  let histogram := getHistogram pixelArray
  if histogram.length ≤ colorCount then
    histogram.map (fun h => some h.color)
  else
    let sortedHist := List.insertionSort (fun a b : HistEntry => b.count ≤ a.count) histogram
    (mcIter (colorCount - 1) [sortedHist]).map getAverageColor

/-! ## Color utility functions -/

/-- Digit production for `x.toString(16)`, structurally recursive on a
fuel argument (any fuel at least `x` gives the true digit string). -/
def jsHexDigitsAux : Nat → Nat → List Char
  | 0, x => [Nat.digitChar x]
  | fuel + 1, x =>
    if x < 16 then [Nat.digitChar x]
    else jsHexDigitsAux fuel (x / 16) ++ [Nat.digitChar (x % 16)]

/-- JavaScript `x.toString(16)` for a nonnegative integer: base-16 digits,
lowercase (`Nat.digitChar` gives `'0'`–`'9'`, `'a'`–`'f'`). -/
def jsHexDigits (x : Nat) : List Char :=
  jsHexDigitsAux x x

/-- The `map` body of `rgbToHex`: `hex.length === 1 ? '0' + hex : hex`. -/
def hexPad (x : Nat) : List Char :=
  let hex := jsHexDigits x
  if hex.length = 1 then '0' :: hex else hex

/-- Embedding of `ColorExtractor.rgbToHex` (part_002 lines 258–263):
`'#' + [r, g, b].map(...).join('')`. -/
def rgbToHex (r g b : Nat) : String :=
  String.mk ('#' :: (hexPad r ++ hexPad g ++ hexPad b))

/-- Value of one hexadecimal digit character, `none` on a non-digit. -/
def hexVal (c : Char) : Option Nat :=
  if '0' ≤ c ∧ c ≤ '9' then some (c.toNat - '0'.toNat)
  else if 'a' ≤ c ∧ c ≤ 'f' then some (c.toNat - 'a'.toNat + 10)
  else none

/-- Parse a two-digit hexadecimal pair. -/
def parseHexPair (c1 c2 : Char) : Option Nat := do
  let h1 ← hexVal c1
  let h2 ← hexVal c2
  pure (h1 * 16 + h2)

/-- Embedding of `Math.round(q)` on an exact rational: floor of `q + 1/2`. -/
def jsRound (q : ℚ) : Int := ⌊q + 1 / 2⌋

/-- The HSL record returned by `rgbToHsl`. -/
structure Hsl where
  h : Int
  s : Int
  l : Int
deriving DecidableEq, Repr

/-- Embedding of `ColorExtractor.rgbToHsl` (part_002 lines 265–292), with exact
rationals standing in for JavaScript doubles.  The `switch (max)` matches
on the first channel equal to the maximum, in the order r, g, b. -/
def rgbToHsl (r0 g0 b0 : Nat) : Hsl :=
  let r : ℚ := r0 / 255
  let g : ℚ := g0 / 255
  let b : ℚ := b0 / 255
  let maxC := max r (max g b)
  let minC := min r (min g b)
  let l := (maxC + minC) / 2
  if maxC = minC then
    ⟨0, 0, jsRound (l * 100)⟩
  else
    let d := maxC - minC
    let s := if l > 1 / 2 then d / (2 - maxC - minC) else d / (maxC + minC)
    let h :=
      if maxC = r then ((g - b) / d + (if g < b then 6 else 0)) / 6
      else if maxC = g then ((b - r) / d + 2) / 6
      else ((r - g) / d + 4) / 6
    ⟨jsRound (h * 360), jsRound (s * 100), jsRound (l * 100)⟩

/-- Embedding of `ColorExtractor.getBrightness` (part_002 lines 294–296). -/
def getBrightness (r g b : Nat) : ℚ :=
  (299 / 1000 * r + 587 / 1000 * g + 114 / 1000 * b) / 255

/-- Embedding of `ColorExtractor.getSaturation` (part_002 lines 298–305). -/
def getSaturation (r g b : Nat) : ℚ :=
  let maxC := max r (max g b)
  let minC := min r (min g b)
  if maxC = 0 then 0 else ((maxC : ℚ) - minC) / maxC

/-! ## Cross-origin fallback palettes -/

/-- Signed 32-bit wrap-around (JavaScript's `ToInt32`, applied by `<<` and
`&`). -/
def toInt32 (x : Int) : Int :=
  let m := x % 4294967296
  if m < 2147483648 then m else m - 4294967296

/-- One step of the `reduce` in `getDefaultPaletteVariation`:
`a = ((a << 5) - a) + b.charCodeAt(0); return a & a;`.  `a << 5` wraps to
32 bits, the subtraction and addition are exact, and `a & a` wraps the
result to 32 bits again. -/
def hashStep (a : Int) (c : Char) : Int :=
  toInt32 (toInt32 (a * 32) - a + c.toNat)

/-- The string hash of `getDefaultPaletteVariation`, over the sequence of
code units of the image address. -/
def jsHash (s : List Char) : Int :=
  s.foldl hashStep 0

/-- A palette entry as built by `analyzeImage` and
`getDefaultPaletteVariation`: the rgb triple with its derived fields.  The
`threeColor` field, an external `THREE.Color` object fully determined by
the rgb triple, is omitted from the embedding. -/
structure ColorRec where
  rgb : RGBPix
  hex : String
  hsl : Hsl
  brightness : ℚ
  saturation : ℚ
deriving DecidableEq, Repr

/-- Build the full color record from an rgb triple, as the `map` bodies in
`analyzeImage` and `getDefaultPaletteVariation` do. -/
def mkColorRec (p : RGBPix) : ColorRec :=
  ⟨p, rgbToHex p.r p.g p.b, rgbToHsl p.r p.g p.b,
   getBrightness p.r p.g p.b, getSaturation p.r p.g p.b⟩

/-- The five hard-coded base palettes of `getDefaultPaletteVariation`
(part_002 lines 328–369). -/
def basePalettes : List (List RGBPix) :=
  [[⟨99, 102, 241⟩, ⟨236, 72, 153⟩, ⟨168, 85, 247⟩, ⟨129, 140, 248⟩, ⟨244, 114, 182⟩],
   [⟨59, 130, 246⟩, ⟨34, 197, 94⟩, ⟨6, 182, 212⟩, ⟨96, 165, 250⟩, ⟨52, 211, 153⟩],
   [⟨251, 146, 60⟩, ⟨239, 68, 68⟩, ⟨245, 158, 11⟩, ⟨254, 202, 202⟩, ⟨254, 215, 170⟩],
   [⟨31, 41, 55⟩, ⟨79, 70, 229⟩, ⟨236, 72, 153⟩, ⟨17, 24, 39⟩, ⟨249, 168, 212⟩],
   [⟨16, 185, 129⟩, ⟨99, 102, 241⟩, ⟨217, 70, 239⟩, ⟨34, 197, 94⟩, ⟨147, 51, 234⟩]]

/-- Embedding of `ColorExtractor.getDefaultPaletteVariation` (part_002 lines 320–387):
hash the image address, pick `palettes[Math.abs(hash) % palettes.length]`
and build full color records. -/
def getDefaultPaletteVariation (imageSrc : List Char) : List ColorRec :=
  let paletteIndex := (jsHash imageSrc).natAbs % basePalettes.length
  (basePalettes.getD paletteIndex []).map mkColorRec

/-- Embedding of `ColorExtractor.getDefaultPalette` (part_002 lines 307–318): the
single hard-coded indigo entry (its derived fields are literals in the
source, including `brightness: 0.5` and `saturation: 0.59`). -/
def getDefaultPalette : List ColorRec :=
  [⟨⟨99, 102, 241⟩, "#6366f1", ⟨239, 84, 67⟩, 1 / 2, 59 / 100⟩]

/-! ## `analyzeImage`, `extractColors` and the palette cache -/

/-- What happens when `analyzeImage` tries to draw the image and read its
pixels:

* `noImg`: the resolved `img` is falsy (`if (!img) return
  this.getDefaultPalette()`);
* `corsBlocked`: `getImageData` throws inside the `try` (tainted canvas),
  so the `catch` returns the fallback variation palette;
* `readable p a`: the `try` block succeeds and the canvas holds the given
  pixel data (rgb triples with alpha values). -/
inductive PixelAccess where
  | noImg : PixelAccess
  | corsBlocked : PixelAccess
  | readable : List (RGBPix × Nat) → PixelAccess
deriving DecidableEq

/-- The slice of a gallery image / texture object that `extractColors` and
`analyzeImage` read: `src`, `uuid` and how its pixels can be accessed.
The `image.material && image.material.map` unwrapping is folded into
`access` (with `noImg` covering a missing `material.map.image`). -/
structure JsImage where
  src : String
  uuid : String
  access : PixelAccess
deriving DecidableEq

/-- The JavaScript exception that escapes `analyzeImage`. -/
inductive JsErr where
  | referenceError : JsErr
deriving DecidableEq, Repr

/-- The pixel sampling loop of `analyzeImage` (part_002 lines 77–88): walk
the flat pixel buffer with stride `quality * 4` and keep opaque pixels
(`a < 125` skipped).  On the flat buffer, stride `quality * 4` visits
every `quality`-th rgba quadruple. -/
def samplePixels (pixels : List (RGBPix × Nat)) (quality : Nat) : List RGBPix :=
  ((List.range pixels.length).filter (fun i => i % quality = 0)).filterMap
    (fun i => (pixels.getD i (⟨0, 0, 0⟩, 0)) |> fun (p, a) =>
      if a < 125 then none else some p)

/-- Embedding of `ColorExtractor.analyzeImage` (part_002 lines 53–105).

The `try` block ends with `const imageData = ...; const pixels =
imageData.data;` — both `const` bindings are scoped to the `try` block and
die with it.  The sampling loop after the `catch` reads `pixels.length`,
which is no longer in scope, so on every image whose pixels *can* be read
the function throws `ReferenceError: pixels is not defined` (the module is
strict-mode code, so there is no global to fall back to).  The embedding
returns `Except.error .referenceError` on that path; `samplePixels` above
embeds the loop the code would run if `pixels` were still in scope. -/
def analyzeImage (image : JsImage) (_colorCount _quality : Nat) :
    Except JsErr (List ColorRec) :=
  match image.access with
  | .noImg => .ok getDefaultPalette
  | .corsBlocked => .ok (getDefaultPaletteVariation image.src.data)
  | .readable _ => .error .referenceError

/-- The in-memory palette cache `this.colorCache`, keyed by
`image.src || image.uuid`. -/
abbrev PaletteCache := List (String × List ColorRec)

/-- The cache key `image.src || image.uuid`; the empty string is falsy. -/
def cacheKey (image : JsImage) : String :=
  if image.src = "" then image.uuid else image.src

/-- Embedding of `ColorExtractor.extractColors` (part_002 lines 29–51) as a state
transition on the cache: return the cached palette if `useCache` and the
key is present; otherwise run `analyzeImage` (a thrown error propagates
and skips the `set`), and cache the result if `useCache`. -/
def extractColors (cache : PaletteCache) (image : JsImage)
    (colorCount quality : Nat) (useCache : Bool) :
    Except JsErr (List ColorRec) × PaletteCache :=
  match useCache, cache.lookup (cacheKey image) with
  | true, some cached => (.ok cached, cache)
  | _, _ =>
    match analyzeImage image colorCount quality with
    | .error e => (.error e, cache)
    | .ok colors =>
      if useCache then (.ok colors, (cacheKey image, colors) :: cache)
      else (.ok colors, cache)

/-- Embedding of `ColorExtractor.dispose` (part_002 lines 493–496): `colorCache.clear()`. -/
def disposeCache (_cache : PaletteCache) : PaletteCache := []

/-! ## Lazy loading: the intersection observer and `SimpleGallery.fixImages`

Two distinct code paths put a `loaded` class on gallery elements:

* `src/src/js/gallery.js` lines 85–99: an `IntersectionObserver` with
  `rootMargin: '50px 0px'` adds `loaded` to an observed `img` when an
  entry with `isIntersecting` fires, then unobserves it;
* `src/js/gallery.js` lines 796–821 (`SimpleGallery.fixImages`): items
  with a `data-src` get `loaded` when the preloaded image fires `load`,
  and items without `data-src` get `loaded` immediately, in both cases
  with no intersection involved.

The models below run over event traces.  `ObsEvent.intersect el inter`
is the observer callback receiving an entry for `el` with
`isIntersecting = inter` (the browser only reports `inter = true` once the
element enters the viewport plus the 50px root margin). -/

/-- Events delivered to the vincent-gallery `IntersectionObserver`. -/
structure ObsEvent where
  el : Nat
  isIntersecting : Bool
deriving DecidableEq

/-- Observer state: which elements are still observed and which carry the
`loaded` class. -/
structure ObsState where
  observed : List Nat
  loaded : List Nat
deriving DecidableEq

/-- The observer callback (src/src/js/gallery.js lines 86–92) for one
entry: if it intersects and the target is observed, add `loaded` and
unobserve; entries for unobserved targets or without intersection do
nothing. -/
def obsStep (s : ObsState) (e : ObsEvent) : ObsState :=
  if e.isIntersecting ∧ e.el ∈ s.observed then
    ⟨s.observed.filter (· ≠ e.el), e.el :: s.loaded⟩
  else s

/-- Run the observer over a trace of entries, starting from the initial
`observe` calls with no element loaded. -/
def obsRun (observed : List Nat) (trace : List ObsEvent) : ObsState :=
  trace.foldl obsStep ⟨observed, []⟩

/-- One `SimpleGallery` item as `fixImages` sees it: whether its `img` has
a `data-src`, and whether the item carries the `loaded` class. -/
structure SgItem where
  dataSrc : Option String
  loadedClass : Bool
deriving DecidableEq

/-- The per-item body of `SimpleGallery.fixImages` (src/js/gallery.js
lines 796–821), split by whether the preloading `Image` has fired `load`
yet: without `data-src` the item is marked `loaded` synchronously; with
`data-src` it is marked `loaded` as soon as the preload's `load` event
fires.  No intersection with the viewport is consulted on either path. -/
def fixImagesItem (item : SgItem) (preloadFired : Bool) : SgItem :=
  match item.dataSrc with
  | none => { item with loadedClass := true }
  | some _ => if preloadFired then { item with loadedClass := true } else item

/-! ## Overlay life cycle: lightbox and image-details overlay

`SimpleGallery.openLightbox` (src/js/gallery.js lines 847–882) appends a
fresh `.lightbox` element to `document.body`; its `close` handler removes
the `active` class and only detaches the element 300 ms later
(`setTimeout(() => lightbox.remove(), 300)`).
`CosmicGallery.showImageDetails` (lines 335–384) behaves the same way
with an `.image-details-overlay`.

The transition system below tracks the attached overlay elements.  An
overlay is `opened` from the moment it is appended until its close is
requested, and `closing` while it waits for the 300 ms removal timer.
The `openOverlay` rule carries the guard `Overlay.opened ∉ s`: a new
overlay can only be opened by clicking the page behind it, which an
attached, active overlay covers; nothing in the code itself prevents a
second `open`. -/

/-- Phase of an attached overlay element. -/
inductive Overlay where
  | opened : Overlay
  | closing : Overlay
deriving DecidableEq

/-- Interactions on the set of attached overlays (a list, one entry per
attached overlay element). -/
inductive OverlayStep : List Overlay → List Overlay → Prop
  | openOverlay (s : List Overlay) (h : Overlay.opened ∉ s) :
      OverlayStep s (Overlay.opened :: s)
  | closeOverlay (s₁ s₂ : List Overlay) :
      OverlayStep (s₁ ++ Overlay.opened :: s₂) (s₁ ++ Overlay.closing :: s₂)
  | removalTimer (s₁ s₂ : List Overlay) :
      OverlayStep (s₁ ++ Overlay.closing :: s₂) (s₁ ++ s₂)

/-- States reachable by open/close interactions from an empty document. -/
inductive OverlayReachable : List Overlay → Prop
  | init : OverlayReachable []
  | step {s t : List Overlay} :
      OverlayReachable s → OverlayStep s t → OverlayReachable t

/-! ## `CosmicGallery.waitForImage` -/

/-- Settlement state of the promise returned by `waitForImage`. -/
inductive PState where
  | pending : PState
  | resolvedP : PState
  | rejectedP : PState
deriving DecidableEq

/-- Events that can reach the executor's callbacks once the promise is
pending: the image's `load` or `error` event, or the 10 s timeout firing. -/
inductive WaitEvent where
  | load : WaitEvent
  | errorEv : WaitEvent
  | timerFire : WaitEvent
deriving DecidableEq

/-- Effect of one event (src/js/gallery.js lines 170–195): `handleLoad`,
`handleError` and the timeout callback all call `resolve()` (settling the
promise if it is still pending); none of them calls `reject`. -/
def waitStep (p : PState) (_e : WaitEvent) : PState :=
  match p with
  | .pending => .resolvedP
  | s => s

/-- The promise returned by `waitForImage` after the executor ran
(`img.complete` resolves immediately) and the events of `trace` were
delivered. -/
def waitForImage (complete : Bool) (trace : List WaitEvent) : PState :=
  trace.foldl waitStep (if complete then .resolvedP else .pending)

/-! ## Spec-side definitions for the quantization-loop claim -/

/-- Statistical variance of channel `d` over a pixel list, as an exact
rational: `E[x²] - E[x]²`. -/
def chanVariance (d : Nat) (ps : List RGBPix) : ℚ :=
  if ps = [] then 0
  else
    let n : ℚ := ps.length
    let s1 : ℚ := ps.foldl (fun s p => s + (p.chan d : ℚ)) 0
    let s2 : ℚ := ps.foldl (fun s p => s + (p.chan d : ℚ) ^ 2) 0
    s2 / n - (s1 / n) ^ 2

/-- Modelled from the spec: the channel the spec says `splitBox` sorts by,
namely the highest-variance channel (same selection structure as the
code's `sortDimension`, with variance in place of range). -/
def specDimension (ps : List RGBPix) : Nat :=
  if chanVariance 1 ps > chanVariance 0 ps ∧ chanVariance 1 ps > chanVariance 2 ps then 1
  else if chanVariance 2 ps > chanVariance 0 ps ∧ chanVariance 2 ps > chanVariance 1 ps then 2
  else 0

/-- Modelled from the spec: `splitBox` as the spec describes it, splitting
at the median of the highest-variance channel; everything else is as in
the code. -/
def splitBoxSpec (box : Box) : Box × Box :=
  if box = [] then ([], [])
  else
    let sorted := sortByChan (specDimension (allPixels box)) (allPixels box)
    (getHistogram (sorted.take (sorted.length / 2)),
     getHistogram (sorted.drop (sorted.length / 2)))

/-- The histogram after the descending-count sort at the top of the
`medianCut` else-branch. -/
def sortedHist (ps : List RGBPix) : Box :=
  List.insertionSort (fun a b : HistEntry => b.count ≤ a.count) (getHistogram ps)

/-- What one iteration of the `medianCut` while-loop does to a non-empty
`boxes` list: the box picked by the `largestIndex` scan has maximal
color-volume among all boxes, the `splice` replaces exactly that box by
the two halves of `splitBox`, and `splitBox` splits the box's pixels at
the median of the channel `sortDimension` picks — the lower-or-equal half
and the strictly-upper half of a stable sort along that channel — where
`sortDimension` is green or blue exactly when that channel's range
strictly exceeds both others', red otherwise. -/
def SelectSplitOK (boxes : List Box) : Prop :=
  boxes ≠ [] →
    let i := largestIdx boxes
    let box := boxes.getD i []
    let aps := allPixels box
    let d := sortDimension aps
    let sorted := sortByChan d aps
    i < boxes.length
    ∧ (∀ (k : Nat) (bk : Box), boxes[k]? = some bk → getColorVolume bk ≤ getColorVolume box)
    ∧ splitStep boxes =
        boxes.take i ++ [(splitBox box).1, (splitBox box).2] ++ boxes.drop (i + 1)
    ∧ sorted.Perm aps
    ∧ List.Sorted (fun p q => p.chan d ≤ q.chan d) sorted
    ∧ (allPixels (splitBox box).1).Perm (sorted.take (aps.length / 2))
    ∧ (allPixels (splitBox box).2).Perm (sorted.drop (aps.length / 2))
    ∧ (d = 1 ↔ chanRange 1 aps > chanRange 0 aps ∧ chanRange 1 aps > chanRange 2 aps)
    ∧ (d = 2 ↔ chanRange 2 aps > chanRange 0 aps ∧ chanRange 2 aps > chanRange 1 aps)

/-- The quantization-loop claim for one input, as amended: `medianCut`
sorts the histogram by descending count, runs the select-and-split loop
`count - 1` times (reaching exactly `count` groups) and maps each group
to its average, and every loop state satisfies `SelectSplitOK`. -/
def MedianCutLoopSpec (ps : List RGBPix) (count : Nat) : Prop :=
  medianCut ps count = (mcIter (count - 1) [sortedHist ps]).map getAverageColor
  ∧ (mcIter (count - 1) [sortedHist ps]).length = count
  ∧ ∀ n, n ≤ count - 1 → SelectSplitOK (mcIter n [sortedHist ps])

/-- Parse the two-character list a `hexPad` block should produce. -/
def parseHexList : List Char → Option Nat
  | [c1, c2] => parseHexPair c1 c2
  | _ => none

/-- Concrete pixel sample on which the channel of largest range (red,
range 100) differs from the channel of highest variance (green, variance
2025 against red's 1875). -/
def cxPixels : List RGBPix :=
  [⟨0, 90, 0⟩, ⟨100, 0, 0⟩, ⟨100, 90, 0⟩, ⟨100, 0, 0⟩]

/-! # Helper lemmas about the median-cut loop -/

/-- Invariant of the `largestIndex` scan: starting from a candidate that
dominates everything before position `i`, the scan returns a position
whose volume dominates every box. -/
theorem largestAux_spec (rest : List Box) :
    ∀ (boxes : List Box) (i best : Nat) (vol : Int),
      boxes.drop i = rest →
      boxes[best]?.map getColorVolume = some vol →
      (∀ (k : Nat) (bk : Box), k < i → boxes[k]? = some bk → getColorVolume bk ≤ vol) →
      boxes[(largestAux rest i best vol).1]?.map getColorVolume =
        some (largestAux rest i best vol).2 ∧
      ∀ (k : Nat) (bk : Box), boxes[k]? = some bk →
        getColorVolume bk ≤ (largestAux rest i best vol).2 := by
  induction rest with
  | nil =>
    intro boxes i best vol hdrop hbest hprev
    refine ⟨hbest, ?_⟩
    intro k bk hk
    have hlen : boxes.length ≤ i := List.drop_eq_nil_iff.mp hdrop
    have hkl : k < boxes.length := by
      by_contra hge
      rw [List.getElem?_eq_none (by omega)] at hk
      exact Option.noConfusion hk
    exact hprev k bk (by omega) hk
  | cons b rest ih =>
    intro boxes i best vol hdrop hbest hprev
    have hib : boxes[i]? = some b := by
      have h0 : (boxes.drop i)[0]? = some b := by rw [hdrop]; simp
      rw [List.getElem?_drop] at h0
      simpa using h0
    have hdrop2 : boxes.drop (i + 1) = rest := by
      have h1 : boxes.drop (i + 1) = (boxes.drop i).drop 1 := (List.drop_drop 1 i boxes).symm
      rw [h1, hdrop]
      rfl
    by_cases hgt : getColorVolume b > vol
    · have heq : largestAux (b :: rest) i best vol =
          largestAux rest (i + 1) i (getColorVolume b) := by
        simp [largestAux, hgt]
      rw [heq]
      refine ih boxes (i + 1) i (getColorVolume b) hdrop2 (by rw [hib]; rfl) ?_
      intro k bk hki hk
      rcases Nat.lt_succ_iff_lt_or_eq.mp hki with hlt | heqk
      · exact le_trans (hprev k bk hlt hk) (le_of_lt hgt)
      · subst heqk
        rw [hib] at hk
        injection hk with hbk
        rw [← hbk]
    · have heq : largestAux (b :: rest) i best vol =
          largestAux rest (i + 1) best vol := by
        simp [largestAux, hgt]
      rw [heq]
      refine ih boxes (i + 1) best vol hdrop2 hbest ?_
      intro k bk hki hk
      rcases Nat.lt_succ_iff_lt_or_eq.mp hki with hlt | heqk
      · exact hprev k bk hlt hk
      · subst heqk
        rw [hib] at hk
        injection hk with hbk
        rw [← hbk]
        exact le_of_not_lt hgt

/-- The `largestIndex` scan of `medianCut` on a non-empty boxes list:
the index is in range and its box has maximal color-volume. -/
theorem largestIdx_spec (boxes : List Box) (hne : boxes ≠ []) :
    largestIdx boxes < boxes.length ∧
    ∀ (k : Nat) (bk : Box), boxes[k]? = some bk →
      getColorVolume bk ≤ getColorVolume (boxes.getD (largestIdx boxes) []) := by
  match boxes, hne with
  | b0 :: rest, _ =>
    have h := largestAux_spec rest (b0 :: rest) 1 0 (getColorVolume b0) rfl (by simp)
      (by
        intro k bk hk1 hk
        interval_cases k
        simp only [List.getElem?_cons_zero] at hk
        injection hk with hbk
        rw [← hbk])
    have hidx : largestIdx (b0 :: rest) = (largestAux rest 1 0 (getColorVolume b0)).1 := rfl
    rcases h with ⟨hmap, hmax⟩
    have hlt : (largestAux rest 1 0 (getColorVolume b0)).1 < (b0 :: rest).length := by
      by_contra hge
      rw [List.getElem?_eq_none (by omega)] at hmap
      exact Option.noConfusion hmap
    have hgetD : (b0 :: rest).getD (largestIdx (b0 :: rest)) [] =
        ((b0 :: rest)[(largestAux rest 1 0 (getColorVolume b0)).1]?).getD [] := by
      rw [hidx, List.getD_eq_getElem?_getD]
    constructor
    · rw [hidx]; exact hlt
    · intro k bk hk
      have := hmax k bk hk
      rw [hgetD]
      cases hmap2 : (b0 :: rest)[(largestAux rest 1 0 (getColorVolume b0)).1]? with
      | none => rw [hmap2] at hmap; exact Option.noConfusion hmap
      | some bi =>
        rw [hmap2] at hmap
        injection hmap with hvol
        simpa [hvol] using this

/-- Each iteration of the `while` loop adds exactly one box. -/
theorem splitStep_length (boxes : List Box) (hne : boxes ≠ []) :
    (splitStep boxes).length = boxes.length + 1 := by
  have hlt := (largestIdx_spec boxes hne).1
  simp only [splitStep, List.length_append, List.length_take, List.length_drop,
    List.length_cons, List.length_nil]
  omega

/-- Length of the boxes list after `n` loop iterations. -/
theorem mcIter_length (n : Nat) :
    ∀ boxes : List Box, boxes ≠ [] → (mcIter n boxes).length = boxes.length + n := by
  induction n with
  | zero => intro boxes _; rfl
  | succ m ih =>
    intro boxes hne
    have hstep := splitStep_length boxes hne
    have hne2 : splitStep boxes ≠ [] := by
      intro hempty
      rw [hempty] at hstep
      simp at hstep
    have := ih (splitStep boxes) hne2
    simp only [mcIter]
    omega

/-! # Claim C1: palette size -/

/-- Claim C1, amended: for every pixel sample and every requested count of
at least 1, `medianCut` returns exactly `count` palette entries, or
exactly one entry per distinct quantized color group (16-wide RGB
buckets) when the histogram has fewer groups than `count` — that is, the
output length is `min count (getHistogram ps).length`.  (The original
claim, with "distinct visible pixels" in place of "distinct quantized
color groups", is refuted by `medianCut_count_cx`.) -/
theorem medianCut_length (ps : List RGBPix) (count : Nat) (hc : 1 ≤ count) :
    (medianCut ps count).length = min count (getHistogram ps).length := by
  by_cases h : (getHistogram ps).length ≤ count
  · simp [medianCut, h, Nat.min_eq_right h]
  · have hchange : medianCut ps count =
        (mcIter (count - 1) [sortedHist ps]).map getAverageColor := by
      simp only [medianCut, if_neg h]
      rfl
    have hlen := mcIter_length (count - 1) [sortedHist ps] (by simp)
    rw [hchange, List.length_map, hlen]
    simp only [List.length_singleton]
    omega

/-- Witness for `medianCut_length` at a concrete input. -/
theorem medianCut_length_witness :
    1 ≤ 3 ∧ (medianCut [⟨0, 0, 0⟩] 3).length = min 3 (getHistogram [⟨0, 0, 0⟩]).length :=
  ⟨by decide, medianCut_length [⟨0, 0, 0⟩] 3 (by decide)⟩

/-- Counterexample to claim C1 as stated: the sample has five distinct
visible pixels and five are requested, yet `medianCut` returns a single
entry, because all five pixels fall into the same 16-wide histogram
bucket. -/
theorem medianCut_count_cx :
    ¬ ((medianCut [⟨0, 0, 0⟩, ⟨1, 1, 1⟩, ⟨2, 2, 2⟩, ⟨3, 3, 3⟩, ⟨4, 4, 4⟩] 5).length = 5 ∨
       ([⟨0, 0, 0⟩, ⟨1, 1, 1⟩, ⟨2, 2, 2⟩, ⟨3, 3, 3⟩, ⟨4, 4, 4⟩] : List RGBPix).dedup.length < 5) := by
  decide

/-! # Claim C2: `extractColors` never throws -/

/-- Claim C2 is violated by the code: on any image whose pixels can be
read (the ordinary same-origin success path), `extractColors` propagates
a `ReferenceError` instead of returning a palette, because `analyzeImage`
declares `const pixels` inside its `try` block but reads `pixels.length`
after the block has closed.  This theorem evaluates the embedding at such
an image. -/
theorem extractColors_readable_throws :
    (extractColors [] ⟨"images/cosmos-01.png", "", .readable [(⟨12, 34, 56⟩, 255)]⟩
        5 10 true).1 = Except.error JsErr.referenceError := rfl

/-! # Claim C4: quantization is deterministic -/

/-- Claim C4: `medianCut` is deterministic — two runs on equal pixel
samples and equal requested counts produce equal palettes (colors and
order).  The embedding is a pure function; in particular the code's only
data-dependent steps (the two stable sorts with deterministic comparators
and the object-key iteration in insertion order) admit no nondeterminism. -/
theorem medianCut_deterministic (ps1 ps2 : List RGBPix) (c1 c2 : Nat)
    (hps : ps1 = ps2) (hc : c1 = c2) : medianCut ps1 c1 = medianCut ps2 c2 := by
  rw [hps, hc]

/-- Witness for `medianCut_deterministic` at a concrete input. -/
theorem medianCut_deterministic_witness :
    medianCut [⟨7, 8, 9⟩, ⟨200, 3, 17⟩] 2 = medianCut [⟨7, 8, 9⟩, ⟨200, 3, 17⟩] 2 :=
  medianCut_deterministic _ _ _ _ rfl rfl

/-! # Claim C5: the cross-origin fallback is hash-deterministic -/

/-- Claim C5: `getDefaultPaletteVariation` is deterministic in the image
address — equal address strings give identical palettes — and the
returned palette is one of the five fixed theme palettes (selected by the
32-bit string hash modulo the palette count). -/
theorem paletteVariation_deterministic (s1 s2 : List Char) (h : s1 = s2) :
    getDefaultPaletteVariation s1 = getDefaultPaletteVariation s2 ∧
    ∃ i, i < basePalettes.length ∧
      getDefaultPaletteVariation s1 = (basePalettes.getD i []).map mkColorRec := by
  subst h
  exact ⟨rfl, (jsHash s1).natAbs % basePalettes.length,
    Nat.mod_lt _ (by decide), rfl⟩

/-- Witness for `paletteVariation_deterministic` at a concrete address. -/
theorem paletteVariation_deterministic_witness :
    getDefaultPaletteVariation "galaxy.png".data = getDefaultPaletteVariation "galaxy.png".data ∧
    ∃ i, i < basePalettes.length ∧
      getDefaultPaletteVariation "galaxy.png".data = (basePalettes.getD i []).map mkColorRec :=
  paletteVariation_deterministic _ _ rfl

/-! # Claim C6: the loaded marker and the viewport -/

/-- Folding the observer callback: an element is loaded afterwards only if
it was already loaded or some intersecting entry for it occurs in the
trace. -/
theorem obsFold_loaded (trace : List ObsEvent) :
    ∀ (s : ObsState) (el : Nat), el ∈ (trace.foldl obsStep s).loaded →
      el ∈ s.loaded ∨ ∃ e ∈ trace, e.el = el ∧ e.isIntersecting = true := by
  induction trace with
  | nil => intro s el h; exact Or.inl h
  | cons e rest ih =>
    intro s el h
    rcases ih (obsStep s e) el h with hmem | ⟨e2, he2, hcond⟩
    · by_cases hc : e.isIntersecting ∧ e.el ∈ s.observed
      · have hstep : obsStep s e = ⟨s.observed.filter (· ≠ e.el), e.el :: s.loaded⟩ := by
          simp only [obsStep, if_pos hc]
        rw [hstep] at hmem
        rcases List.mem_cons.mp hmem with heq | hmem2
        · exact Or.inr ⟨e, by simp, heq.symm, hc.1⟩
        · exact Or.inl hmem2
      · have hstep : obsStep s e = s := by
          simp only [obsStep, if_neg hc]
        rw [hstep] at hmem
        exact Or.inl hmem
    · exact Or.inr ⟨e2, by simp [he2], hcond⟩

/-- Claim C6, amended for the vincent-gallery intersection observer
(src/src/js/gallery.js lines 85–99): an observed image element carries the
`loaded` class only if an entry with `isIntersecting = true` for that
element has been delivered — the element entered the viewport intersection
region (viewport plus the 50px root margin).  The other code path that
sets a `loaded` class, `SimpleGallery.fixImages`, does so with no
intersection at all (see `fixImages_loaded_cx`), which is what forces the
amendment. -/
theorem observer_loaded_only_after_intersection (observed : List Nat)
    (trace : List ObsEvent) (el : Nat)
    (h : el ∈ (obsRun observed trace).loaded) :
    ∃ e ∈ trace, e.el = el ∧ e.isIntersecting = true := by
  rcases obsFold_loaded trace ⟨observed, []⟩ el h with hmem | hex
  · simp at hmem
  · exact hex

/-- Witness for `observer_loaded_only_after_intersection` at a concrete
trace. -/
theorem observer_loaded_only_after_intersection_witness :
    5 ∈ (obsRun [5] [⟨5, true⟩]).loaded ∧
    ∃ e ∈ ([⟨5, true⟩] : List ObsEvent), e.el = 5 ∧ e.isIntersecting = true :=
  ⟨by decide, observer_loaded_only_after_intersection [5] [⟨5, true⟩] 5 (by decide)⟩

/-- Counterexample to claim C6 as stated: `SimpleGallery.fixImages` marks
an item that has no `data-src` as `loaded` synchronously during
initialization — its semantics consult no intersection information at all
(the `fixImagesItem` transition has no intersection input), so the item
gains the marker with no intersection having occurred. -/
theorem fixImages_loaded_cx :
    (fixImagesItem ⟨none, false⟩ false).loadedClass = true ∧
    (⟨none, false⟩ : SgItem).loadedClass = false := by
  decide

/-! # Claim C7: number of attached overlays -/

/-- Count of overlays that are attached and not in their close animation. -/
def countOpened : List Overlay → Nat
  | [] => 0
  | Overlay.opened :: s => countOpened s + 1
  | Overlay.closing :: s => countOpened s

theorem countOpened_append (l1 l2 : List Overlay) :
    countOpened (l1 ++ l2) = countOpened l1 + countOpened l2 := by
  induction l1 with
  | nil => simp [countOpened]
  | cons x l1 ih =>
    cases x with
    | opened =>
      have h1 : countOpened ((Overlay.opened :: l1) ++ l2) = countOpened (l1 ++ l2) + 1 := rfl
      have h2 : countOpened (Overlay.opened :: l1) = countOpened l1 + 1 := rfl
      rw [h1, h2, ih]
      omega
    | closing =>
      have h1 : countOpened ((Overlay.closing :: l1) ++ l2) = countOpened (l1 ++ l2) := rfl
      have h2 : countOpened (Overlay.closing :: l1) = countOpened l1 := rfl
      rw [h1, h2, ih]

theorem countOpened_eq_zero {s : List Overlay} (h : Overlay.opened ∉ s) :
    countOpened s = 0 := by
  induction s with
  | nil => rfl
  | cons x s ih =>
    cases x with
    | opened => exact absurd (List.mem_cons_self _ _) h
    | closing =>
      simp only [countOpened]
      exact ih (fun hm => h (List.mem_cons_of_mem _ hm))

/-- Claim C7, amended: during any sequence of open and close
interactions, at most one overlay that has not begun its close animation
is attached to the document.  An overlay whose close was requested stays
attached until its 300 ms removal timer fires, so a closing overlay can
coexist with a newly opened one (see `overlays_claim_cx`); opening is
modelled as possible only while no fully open overlay is attached, since
an open overlay covers the page and receives the clicks. -/
theorem overlays_at_most_one_open (s : List Overlay) (h : OverlayReachable s) :
    countOpened s ≤ 1 := by
  induction h with
  | init => simp [countOpened]
  | step hr hstep ih =>
    cases hstep with
    | openOverlay s2 hnotin =>
      simp [countOpened, countOpened_eq_zero hnotin]
    | closeOverlay s1 s2 =>
      rw [countOpened_append] at ih ⊢
      simp only [countOpened] at ih ⊢
      omega
    | removalTimer s1 s2 =>
      rw [countOpened_append] at ih ⊢
      simp only [countOpened] at ih ⊢
      omega

/-- Witness for `overlays_at_most_one_open` at a concrete reachable
state. -/
theorem overlays_at_most_one_open_witness :
    countOpened [Overlay.opened] ≤ 1 :=
  overlays_at_most_one_open [Overlay.opened]
    (OverlayReachable.step OverlayReachable.init (OverlayStep.openOverlay [] (by decide)))

/-- Counterexample to claim C7 as stated: open a lightbox, click close
(the element stays attached for the 300 ms fade-out), and open another
item before the removal timer fires — the reachable state
`[opened, closing]` has two overlay elements attached at once. -/
theorem overlays_claim_cx :
    ¬ ∀ s, OverlayReachable s → s.length ≤ 1 := by
  intro hclaim
  have r1 : OverlayReachable [Overlay.opened] :=
    OverlayReachable.step OverlayReachable.init (OverlayStep.openOverlay [] (by decide))
  have r2 : OverlayReachable [Overlay.closing] :=
    OverlayReachable.step r1 (OverlayStep.closeOverlay [] [])
  have r3 : OverlayReachable [Overlay.opened, Overlay.closing] :=
    OverlayReachable.step r2 (OverlayStep.openOverlay [Overlay.closing] (by decide))
  have h2 := hclaim _ r3
  simp at h2

/-! # Claim C8: `waitForImage` always resolves, never rejects -/

theorem waitFold_resolved (trace : List WaitEvent) :
    trace.foldl waitStep PState.resolvedP = PState.resolvedP := by
  induction trace with
  | nil => rfl
  | cons e rest ih => exact ih

/-- Claim C8: the promise returned by `waitForImage` never rejects, and it
resolves whenever the image was already complete or at least one of the
`load`, `error` or timeout events is delivered; the browser guarantees the
10 s timeout fires if neither listener does, so the trace is non-empty on
every real run. -/
theorem waitForImage_settles (complete : Bool) (trace : List WaitEvent) :
    waitForImage complete trace ≠ PState.rejectedP ∧
    (complete = true ∨ trace ≠ [] → waitForImage complete trace = PState.resolvedP) := by
  cases complete with
  | true =>
    have hres : waitForImage true trace = PState.resolvedP := waitFold_resolved trace
    exact ⟨by rw [hres]; intro hcon; exact PState.noConfusion hcon, fun _ => hres⟩
  | false =>
    cases trace with
    | nil =>
      refine ⟨by intro hcon; exact PState.noConfusion hcon, ?_⟩
      intro h
      rcases h with h | h
      · exact Bool.noConfusion h
      · exact absurd rfl h
    | cons e rest =>
      have hres : waitForImage false (e :: rest) = PState.resolvedP := waitFold_resolved rest
      exact ⟨by rw [hres]; intro hcon; exact PState.noConfusion hcon, fun _ => hres⟩

/-- Witness for `waitForImage_settles`: an incomplete image whose only
event is the timeout firing. -/
theorem waitForImage_settles_witness :
    waitForImage false [WaitEvent.timerFire] ≠ PState.rejectedP ∧
    waitForImage false [WaitEvent.timerFire] = PState.resolvedP :=
  ⟨(waitForImage_settles false [WaitEvent.timerFire]).1,
   (waitForImage_settles false [WaitEvent.timerFire]).2 (Or.inr (by decide))⟩

/-! # Claim C9: the palette cache is append-only -/

/-- Claim C9: every call to `extractColors` either leaves the cache
unchanged or adds one new entry under a key that was not present; in
particular every entry present before the call is still present, with the
same palette, after it.  (The cache is cleared only by `dispose`,
embedded as `disposeCache`.) -/
theorem extractColors_append_only (cache : PaletteCache) (image : JsImage)
    (count quality : Nat) (useCache : Bool) :
    (∀ (k : String) (v : List ColorRec), cache.lookup k = some v →
      ((extractColors cache image count quality useCache).2).lookup k = some v) ∧
    ((extractColors cache image count quality useCache).2 = cache ∨
      ∃ colors, cache.lookup (cacheKey image) = none ∧
        (extractColors cache image count quality useCache).2 =
          (cacheKey image, colors) :: cache) := by
  cases hu : useCache with
  | false =>
    cases ha : analyzeImage image count quality with
    | error e => simp [extractColors, ha]
    | ok colors => simp [extractColors, ha]
  | true =>
    cases hl : cache.lookup (cacheKey image) with
    | some cached => simp [extractColors, hl]
    | none =>
      cases ha : analyzeImage image count quality with
      | error e => simp [extractColors, hl, ha]
      | ok colors =>
        constructor
        · intro k v hk
          have hne : ¬ (k == cacheKey image) = true := by
            intro hkk
            have hkk2 : k = cacheKey image := by simpa using hkk
            rw [hkk2, hl] at hk
            exact Option.noConfusion hk
          simp [extractColors, hl, ha, List.lookup, hne, hk]
        · exact Or.inr ⟨colors, rfl, by simp [extractColors, hl, ha]⟩

/-- Witness for `extractColors_append_only` at a concrete cache and
image. -/
theorem extractColors_append_only_witness :
    ((extractColors [("k", getDefaultPalette)] ⟨"", "u", PixelAccess.noImg⟩ 5 10 true).2).lookup "k"
        = some getDefaultPalette ∧
    ((extractColors [("k", getDefaultPalette)] ⟨"", "u", PixelAccess.noImg⟩ 5 10 true).2
        = [("k", getDefaultPalette)] ∨
      ∃ colors, ([("k", getDefaultPalette)] : PaletteCache).lookup
          (cacheKey ⟨"", "u", PixelAccess.noImg⟩) = none ∧
        (extractColors [("k", getDefaultPalette)] ⟨"", "u", PixelAccess.noImg⟩ 5 10 true).2 =
          (cacheKey ⟨"", "u", PixelAccess.noImg⟩, colors) :: [("k", getDefaultPalette)]) :=
  ⟨(extractColors_append_only [("k", getDefaultPalette)] ⟨"", "u", PixelAccess.noImg⟩ 5 10 true).1
      "k" getDefaultPalette rfl,
   (extractColors_append_only [("k", getDefaultPalette)] ⟨"", "u", PixelAccess.noImg⟩ 5 10 true).2⟩

/-! # Claim C3: the structure of the quantization loop -/

/-- Inserting one pixel into the histogram adds exactly that pixel to the
pixel multiset. -/
theorem allPixels_histInsert (acc : Box) (p : RGBPix) :
    (allPixels (histInsert acc p)).Perm (allPixels acc ++ [p]) := by
  induction acc with
  | nil => simp [histInsert, allPixels]
  | cons e rest ih =>
    by_cases hb : bucketKey e.color = bucketKey p
    · simp only [histInsert, if_pos hb, allPixels, List.flatMap_cons]
      rw [List.append_assoc, List.append_assoc]
      exact List.Perm.append_left e.pixels List.perm_append_comm
    · simp only [histInsert, if_neg hb, allPixels, List.flatMap_cons]
      rw [List.append_assoc]
      exact List.Perm.append_left e.pixels ih

/-- The histogram preserves the pixel multiset. -/
theorem allPixels_getHistogram (l : List RGBPix) :
    (allPixels (getHistogram l)).Perm l := by
  suffices h : ∀ acc : Box, (allPixels (List.foldl histInsert acc l)).Perm (allPixels acc ++ l) by
    simpa [getHistogram, allPixels] using h []
  induction l with
  | nil => intro acc; simp
  | cons p rest ih =>
    intro acc
    have h1 : (allPixels (List.foldl histInsert acc (p :: rest))).Perm
        (allPixels (histInsert acc p) ++ rest) := ih (histInsert acc p)
    have h2 : (allPixels (histInsert acc p) ++ rest).Perm ((allPixels acc ++ [p]) ++ rest) :=
      (allPixels_histInsert acc p).append_right rest
    have h3 : (allPixels acc ++ [p]) ++ rest = allPixels acc ++ (p :: rest) := by simp
    exact (h1.trans h2).trans (h3 ▸ List.Perm.refl _)

/-- Sorting the pixels does not change their number. -/
theorem sortByChan_length (d : Nat) (ps : List RGBPix) :
    (sortByChan d ps).length = ps.length := by
  simp [sortByChan, List.length_insertionSort]

/-- Every loop state satisfies the select-and-split description. -/
theorem selectSplitOK_all (boxes : List Box) : SelectSplitOK boxes := by
  unfold SelectSplitOK
  intro hne
  obtain ⟨hlt, hmax⟩ := largestIdx_spec boxes hne
  refine ⟨hlt, hmax, rfl, List.perm_insertionSort _ _, ?_, ?_, ?_, ?_, ?_⟩
  · haveI t1 : IsTotal RGBPix
        (fun p q => p.chan (sortDimension (allPixels (boxes.getD (largestIdx boxes) []))) ≤
          q.chan (sortDimension (allPixels (boxes.getD (largestIdx boxes) [])))) :=
      ⟨fun a b => Nat.le_total _ _⟩
    haveI t2 : IsTrans RGBPix
        (fun p q => p.chan (sortDimension (allPixels (boxes.getD (largestIdx boxes) []))) ≤
          q.chan (sortDimension (allPixels (boxes.getD (largestIdx boxes) [])))) :=
      ⟨fun _ _ _ hab hbc => Nat.le_trans hab hbc⟩
    exact List.sorted_insertionSort _ _
  · by_cases hbox : boxes.getD (largestIdx boxes) [] = []
    · rw [hbox]
      simp [splitBox, allPixels, sortByChan, List.insertionSort]
    · simp only [splitBox, if_neg hbox, sortByChan_length]
      exact allPixels_getHistogram _
  · by_cases hbox : boxes.getD (largestIdx boxes) [] = []
    · rw [hbox]
      simp [splitBox, allPixels, sortByChan, List.insertionSort]
    · simp only [splitBox, if_neg hbox, sortByChan_length]
      exact allPixels_getHistogram _
  · unfold sortDimension
    split_ifs with h1 h2
    · exact ⟨fun _ => h1, fun _ => rfl⟩
    · exact ⟨fun hcon => absurd hcon (by decide), fun hcond => absurd hcond h1⟩
    · exact ⟨fun hcon => absurd hcon (by decide), fun hcond => absurd hcond h1⟩
  · unfold sortDimension
    split_ifs with h1 h2
    · exact ⟨fun hcon => absurd hcon (by decide),
        fun hcond => absurd hcond.2 (not_lt.mpr (le_of_lt h1.2))⟩
    · exact ⟨fun _ => h2, fun _ => rfl⟩
    · exact ⟨fun hcon => absurd hcon (by decide), fun hcond => absurd hcond h2⟩

/-- Claim C3, amended: for every pixel sample whose histogram has more
groups than the requested count (with count at least 1), `medianCut`
sorts the histogram by descending pixel count, then repeatedly picks a
group of maximal color-volume (the scan keeps the first maximal one) and
splits it at the median of its chosen channel — the channel of largest
range, where green or blue is chosen only when its range strictly exceeds
both other ranges, red otherwise — until exactly `count` groups exist,
and finally maps each group to the rounded average of its pixels.  The
original claim's "highest-variance channel" is refuted by
`splitBox_variance_cx`: the code compares ranges, not variances. -/
theorem medianCut_loop_theorem (ps : List RGBPix) (count : Nat)
    (hc : 1 ≤ count) (hlen : count < (getHistogram ps).length) :
    MedianCutLoopSpec ps count := by
  refine ⟨?_, ?_, ?_⟩
  · simp only [medianCut, if_neg (by omega : ¬ (getHistogram ps).length ≤ count)]
    rfl
  · have h := mcIter_length (count - 1) [sortedHist ps] (by simp)
    simp only [List.length_singleton] at h
    omega
  · intro n _
    exact selectSplitOK_all _

/-- Witness for `medianCut_loop_theorem` at a concrete sample. -/
theorem medianCut_loop_theorem_witness :
    1 ≤ 2 ∧ 2 < (getHistogram [⟨0, 0, 0⟩, ⟨200, 10, 10⟩, ⟨10, 200, 10⟩]).length ∧
    MedianCutLoopSpec [⟨0, 0, 0⟩, ⟨200, 10, 10⟩, ⟨10, 200, 10⟩] 2 :=
  ⟨by decide, by decide,
   medianCut_loop_theorem [⟨0, 0, 0⟩, ⟨200, 10, 10⟩, ⟨10, 200, 10⟩] 2 (by decide) (by decide)⟩

/-- Counterexample to claim C3 as stated: on the box holding `cxPixels`,
the highest-variance channel is green (variance 2025, against 1875 for
red and 0 for blue), but the code sorts and splits along red, whose range
(100) is largest; the resulting split differs from the median split along
the highest-variance channel. -/
theorem splitBox_variance_cx :
    sortDimension (allPixels (getHistogram cxPixels)) = 0 ∧
    chanVariance 1 (allPixels (getHistogram cxPixels)) >
      chanVariance 0 (allPixels (getHistogram cxPixels)) ∧
    chanVariance 1 (allPixels (getHistogram cxPixels)) >
      chanVariance 2 (allPixels (getHistogram cxPixels)) ∧
    splitBox (getHistogram cxPixels) ≠ splitBoxSpec (getHistogram cxPixels) := by
  have hap : allPixels (getHistogram cxPixels) =
      [⟨0, 90, 0⟩, ⟨100, 0, 0⟩, ⟨100, 0, 0⟩, ⟨100, 90, 0⟩] := by decide
  have hv10 : chanVariance 1 [(⟨0, 90, 0⟩ : RGBPix), ⟨100, 0, 0⟩, ⟨100, 0, 0⟩, ⟨100, 90, 0⟩] >
      chanVariance 0 [(⟨0, 90, 0⟩ : RGBPix), ⟨100, 0, 0⟩, ⟨100, 0, 0⟩, ⟨100, 90, 0⟩] := by
    simp only [chanVariance, RGBPix.chan, List.foldl, List.cons_ne_nil, if_false]
    norm_num
  have hv12 : chanVariance 1 [(⟨0, 90, 0⟩ : RGBPix), ⟨100, 0, 0⟩, ⟨100, 0, 0⟩, ⟨100, 90, 0⟩] >
      chanVariance 2 [(⟨0, 90, 0⟩ : RGBPix), ⟨100, 0, 0⟩, ⟨100, 0, 0⟩, ⟨100, 90, 0⟩] := by
    simp only [chanVariance, RGBPix.chan, List.foldl, List.cons_ne_nil, if_false]
    norm_num
  have hd : specDimension [(⟨0, 90, 0⟩ : RGBPix), ⟨100, 0, 0⟩, ⟨100, 0, 0⟩, ⟨100, 90, 0⟩] = 1 := by
    unfold specDimension
    rw [if_pos ⟨hv10, hv12⟩]
  have hspec : splitBoxSpec (getHistogram cxPixels) =
      (getHistogram [⟨100, 0, 0⟩, ⟨100, 0, 0⟩], getHistogram [⟨0, 90, 0⟩, ⟨100, 90, 0⟩]) := by
    unfold splitBoxSpec
    rw [if_neg (by decide), hap, hd]
    decide
  refine ⟨by decide, ?_, ?_, ?_⟩
  · rw [hap]; exact hv10
  · rw [hap]; exact hv12
  · rw [hspec]
    decide

/-! # Claim C10: `rgbToHex` round trip -/

/-- With any fuel, a value below 16 yields its single digit. -/
theorem jsHexDigitsAux_small (fuel y : Nat) (hy : y < 16) :
    jsHexDigitsAux fuel y = [Nat.digitChar y] := by
  cases fuel with
  | zero => rfl
  | succ f => simp [jsHexDigitsAux, hy]

/-- A value in 16..255 yields its two digits. -/
theorem jsHexDigits_two (x : Nat) (h16 : 16 ≤ x) (h256 : x < 256) :
    jsHexDigits x = [Nat.digitChar (x / 16), Nat.digitChar (x % 16)] := by
  obtain ⟨f, rfl⟩ : ∃ f, x = f + 1 := ⟨x - 1, by omega⟩
  unfold jsHexDigits
  simp only [jsHexDigitsAux, if_neg (by omega : ¬ f + 1 < 16)]
  rw [jsHexDigitsAux_small f ((f + 1) / 16) (by omega)]
  rfl

/-- Function `hexVal` inverts `Nat.digitChar` on hexadecimal digits. -/
theorem hexVal_digitChar (n : Nat) (h : n < 16) :
    hexVal (Nat.digitChar n) = some n := by
  interval_cases n <;> decide

/-- A channel value in 0..255 produces a two-character block that parses
back to the value. -/
theorem hexPad_parse (x : Nat) (h : x < 256) :
    ∃ d1 d2, hexPad x = [d1, d2] ∧ parseHexPair d1 d2 = some x := by
  by_cases h16 : x < 16
  · have hdig : jsHexDigits x = [Nat.digitChar x] := jsHexDigitsAux_small x x h16
    refine ⟨'0', Nat.digitChar x, ?_, ?_⟩
    · simp [hexPad, hdig]
    · have h0 : hexVal '0' = some 0 := by decide
      simp [parseHexPair, h0, hexVal_digitChar x h16]
  · have hdig := jsHexDigits_two x (by omega) h
    refine ⟨Nat.digitChar (x / 16), Nat.digitChar (x % 16), ?_, ?_⟩
    · simp [hexPad, hdig]
    · have h1 := hexVal_digitChar (x / 16) (by omega)
      have h2 := hexVal_digitChar (x % 16) (by omega)
      simp [parseHexPair, h1, h2]
      omega

/-- Claim C10: for all channel values in 0..255, `rgbToHex` returns a
7-character string, a hash sign followed by three two-digit hexadecimal
blocks, and parsing the three blocks returns exactly `r`, `g` and `b`. -/
theorem rgbToHex_roundtrip (r g b : Nat) (hr : r ≤ 255) (hg : g ≤ 255) (hb : b ≤ 255) :
    (rgbToHex r g b).length = 7 ∧
    ∃ c1 c2 c3 c4 c5 c6 : Char,
      (rgbToHex r g b).data = ['#', c1, c2, c3, c4, c5, c6] ∧
      parseHexPair c1 c2 = some r ∧ parseHexPair c3 c4 = some g ∧
      parseHexPair c5 c6 = some b := by
  obtain ⟨r1, r2, hrp, hrv⟩ := hexPad_parse r (by omega)
  obtain ⟨g1, g2, hgp, hgv⟩ := hexPad_parse g (by omega)
  obtain ⟨b1, b2, hbp, hbv⟩ := hexPad_parse b (by omega)
  constructor
  · show (String.mk ('#' :: (hexPad r ++ hexPad g ++ hexPad b))).length = 7
    rw [hrp, hgp, hbp]
    rfl
  · exact ⟨r1, r2, g1, g2, b1, b2, by simp [rgbToHex, hrp, hgp, hbp], hrv, hgv, hbv⟩

/-- Witness for `rgbToHex_roundtrip` at the indigo base color. -/
theorem rgbToHex_roundtrip_witness :
    (rgbToHex 99 102 241).length = 7 ∧
    ∃ c1 c2 c3 c4 c5 c6 : Char,
      (rgbToHex 99 102 241).data = ['#', c1, c2, c3, c4, c5, c6] ∧
      parseHexPair c1 c2 = some 99 ∧ parseHexPair c3 c4 = some 102 ∧
      parseHexPair c5 c6 = some 241 :=
  rgbToHex_roundtrip 99 102 241 (by decide) (by decide) (by decide)
